import Mathlib

/-!
# Verification of the daily-game-drops aggregation pipeline

Shallow embedding of the deal-aggregation pipeline of the repository:
source adapters (`src/lib/rss.ts`, `src/app/api/fetch-deals/route.ts`),
affiliate tracking helpers (`src/lib/affiliate-client.ts`), the final
sort/merge step of the route handlers, and the Firestore persistence
gateway (`src/lib/firebase.ts`).

Modelling conventions:
* JavaScript strings are `String`; a possibly-`undefined` string field is
  `Option String`; the JS truthiness fallback `a || b` on strings is
  `jsOrStr` (both `undefined` and `""` are falsy).
* JS numbers occurring here are decimal price/percent values; they are
  modelled as `Rat`, with `Option Rat` for possibly-`NaN` results of
  `parseFloat` (`none` = `NaN`).
* Timestamps are modelled as milliseconds since the epoch (`Nat`), the
  value of `Date.prototype.getTime`; `isoOf` stands for the (injective)
  ISO-8601 rendering of such an instant.
* Firestore documents are open field maps, modelled as association lists
  `List (String × String)`; `set(..., {merge: true})` is `setMergeDoc`.
-/

namespace DailyGameDrops

/-! ## JavaScript string and number primitives -/

/-- JS `a || b` for string-valued expressions: `undefined` and `""` are falsy. -/
def jsOrStr (a : Option String) (b : String) : String :=
  match a with
  | none => b
  | some s => if s.isEmpty then b else s

/-- ISO-8601 rendering of an epoch-millisecond instant
(`new Date(n).toISOString()`); modelled by the decimal numeral of `n`,
which is injective, since no claim inspects the rendered text. -/
def isoOf (n : Nat) : String := toString n

/-- Digit characters accepted by the `\d` regex class. -/
def digitChar (c : Char) : Bool := c.isDigit

/-- Numeric value of a digit string (empty list denotes 0). -/
def digitsToNat : List Char → Nat
  | [] => 0
  | c :: cs => digitsToNat cs + c.toNat.sub 48 * 10 ^ cs.length

/-- Exact rational value of a decimal numeral `int.frac`. -/
def decValue (int frac : List Char) : Rat :=
  mkRat (Int.ofNat (digitsToNat int * 10 ^ frac.length + digitsToNat frac)) (10 ^ frac.length)

/-- JS `parseFloat` on the numeral-shaped strings occurring in provider
payloads: parses a greedy prefix `\d+(\.\d*)?` and ignores the rest;
`none` models `NaN` (no leading digit, or `undefined` input). -/
def parsePrefixDecimal (cs : List Char) : Option Rat :=
  let ds := cs.takeWhile digitChar
  let rest := cs.dropWhile digitChar
  if ds.isEmpty then none
  else match rest with
    | '.' :: rest2 => some (decValue ds (rest2.takeWhile digitChar))
    | _ => some (decValue ds [])

/-- `parseFloat(x)` where `x : Option String` may be `undefined`. -/
def jsParseFloat (s : Option String) : Option Rat :=
  match s with
  | none => none
  | some str => parsePrefixDecimal str.data

/-- `Number.prototype.toFixed(2)` for the (non-negative) parsed prices,
with `NaN.toFixed(2) = "NaN"`.  Rounding half-up on exact rationals. -/
def ratToFixed2 (q : Option Rat) : String :=
  match q with
  | none => "NaN"
  | some r =>
    let n : Int := ⌊r * 100 + 1 / 2⌋
    let ip := n / 100
    let fp := (n % 100).toNat
    toString ip ++ "." ++ (if fp < 10 then "0" ++ toString fp else toString fp)

/-- `Number.prototype.toFixed(0)` (rounding half-up on exact rationals). -/
def ratToFixed0 (r : Rat) : String :=
  toString (⌊r + 1 / 2⌋ : Int)

/-! ## Regex scanners of the Storefront-RSS adapter (`src/lib/rss.ts`)

`parseHumbleFeed` extracts prices from the item description with
`/\$(\d+\.?\d*)/` and `/now (\$\d+\.?\d*)/i`.  The scanners below follow
the JS regex engine: leftmost match, greedy `\d+`, optional `.`,
greedy `\d*`, advancing one position on a local failure. -/

/-- Match `\d+\.?\d*` at the head of the input, returning the captured
characters (at least one digit, optionally a dot and more digits). -/
def matchDecimal (cs : List Char) : Option (List Char) :=
  let ds := cs.takeWhile digitChar
  let rest := cs.dropWhile digitChar
  if ds.isEmpty then none
  else match rest with
    | '.' :: rest2 => some (ds ++ '.' :: rest2.takeWhile digitChar)
    | _ => some ds

/-- Leftmost match of `/\$(\d+\.?\d*)/`; returns capture group 1. -/
def findPrice : List Char → Option String
  | [] => none
  | '$' :: rest =>
    match matchDecimal rest with
    | some m => some (String.mk m)
    | none => findPrice rest
  | _ :: rest => findPrice rest

/-- Attempt `/now \$\d+\.?\d*/i` at the current position: the literal
`now ` (letters case-insensitively) followed by `$` and a decimal;
returns the decimal's characters. -/
def nowPriceAt (cs : List Char) : Option (List Char) :=
  match cs with
  | a :: b :: c :: ' ' :: '$' :: r =>
    if a.toLower == 'n' && b.toLower == 'o' && c.toLower == 'w' then matchDecimal r
    else none
  | _ => none

/-- Leftmost match of `/now (\$\d+\.?\d*)/i`; returns capture group 1
(the dollar amount including the `$`), advancing one position on a
local failure. -/
def findNowPrice : List Char → Option String
  | [] => none
  | a :: rest =>
    match nowPriceAt (a :: rest) with
    | some m => some ("$" ++ String.mk m)
    | none => findNowPrice rest

/-- Whether `pat` occurs at the head of `l` (`String.prototype.startsWith`
at one position of the `includes` scan). -/
def headMatches : List Char → List Char → Bool
  | [], _ => true
  | _ :: _, [] => false
  | p :: ps, c :: cs => p == c && headMatches ps cs

/-- `String.prototype.includes` on character lists. -/
def listContainsSub (pat : List Char) : List Char → Bool
  | [] => headMatches pat []
  | c :: rest => headMatches pat (c :: rest) || listContainsSub pat rest

/-- Lower-case alphanumeric characters, the class kept by the slug regex
`[^a-z0-9]` after `toLowerCase()`. -/
def slugKeep (c : Char) : Bool := ('a' ≤ c && c ≤ 'z') || c.isDigit

/-- Collapse every maximal run of non-kept characters to one hyphen
(`.replace(/[^a-z0-9]+/g, '-')`); `inRun` records an open run. -/
def collapseAux (inRun : Bool) : List Char → List Char
  | [] => []
  | c :: rest =>
    if slugKeep c then c :: collapseAux false rest
    else if inRun then collapseAux true rest
    else '-' :: collapseAux true rest

/-- Strip the single leading / trailing hyphen removed by
`.replace(/(^-|-$)/g, '')` (runs are already collapsed). -/
def trimHyphens (cs : List Char) : List Char :=
  let cs1 := match cs with
    | '-' :: rest => rest
    | other => other
  match cs1.reverse with
  | '-' :: rest => rest.reverse
  | _ => cs1

/-- Slug generation of `parseHumbleFeed` / `parseEpicGamesFeed`:
lower-case, collapse non-alphanumerics to hyphens, trim, cap at 50. -/
def slugify (title : String) : String :=
  String.mk ((trimHyphens (collapseAux false title.toLower.data)).take 50)

/-! ## Canonical deal shape (`GameDealFromAPI`, `src/lib/firebase.ts`)

Restricted to the fields the claims are about; presentation-only fields
(`imageUrl`, `description`, `affiliateUrl`, platform metadata) are not
modelled. -/

structure GameDeal where
  id : String
  title : String
  dealID : String
  originalPrice : String
  dealPrice : String
  /-- the `savings` field: a percent rendered as a string. -/
  savings : String
  /-- `datePosted` as epoch milliseconds (`new Date(d.datePosted).getTime()`). -/
  datePostedMillis : Nat
  sourceType : String
deriving DecidableEq, Repr

/-! ## Affiliate tracking helper (`src/lib/affiliate-client.ts`,
`addTrackingParameters`, also in the unnamed affiliate module) -/

/-- `addTrackingParameters(url, source)`: appends the three `utm_*`
parameters, choosing `&` vs `?` by whether the URL already has a query
string (`url.includes('?')`). -/
def addTrackingParameters (url : String) (source : String := "homepage") : String :=
  let separator := if url.data.contains '?' then "&" else "?"
  url ++ separator ++ "utm_source=dailygamedrops&utm_medium=affiliate&utm_campaign=" ++ source

/-! ## Storefront-RSS adapter: Humble feed (`parseHumbleFeed`, `src/lib/rss.ts`) -/

/-- One parsed `<item>` of the Humble RSS feed.  `pubDateMillis` is the
already-parsed `new Date(item.pubDate).getTime()`. -/
structure RSSItem where
  title : String
  link : String
  description : String
  pubDateMillis : Nat
  guid : Option String
deriving Repr

/-- The `savings` string computed by `parseHumbleFeed`:
`"100"` for free items, otherwise `((original-sale)/original*100).toFixed(0)`
when both prices were found and the original is positive, else `"0"`. -/
def humbleSavings (isFree : Bool) (priceMatch saleMatch : Option String) : String :=
  if isFree then "100"
  else
    match priceMatch, saleMatch with
    | some p, some s =>
      let original := jsParseFloat (some p)
      let sale := jsParseFloat (some (s.drop 1))
      match original, sale with
      | some o, some sl => if 0 < o then ratToFixed0 ((o - sl) / o * 100) else "0"
      | _, _ => "0"
    | _, _ => "0"

/-- `originalPrice` of a Humble item: the first `$`-amount of the
description, or the explicit sentinel when none is found. -/
def humbleOriginalPrice (desc : String) : String :=
  match findPrice desc.data with
  | some m => "$" ++ m
  | none => "Price not available"

/-- `dealPrice` of a Humble item: the `now $X` amount when present,
otherwise the literal `Free`. -/
def humbleDealPrice (desc : String) : String :=
  match findNowPrice desc.data with
  | some s => s
  | none => "Free"

/-- `isFree`: the deal price is the literal `Free`, or the lowercased
title contains `free`. -/
def humbleIsFree (title desc : String) : Bool :=
  humbleDealPrice desc == "Free" || listContainsSub "free".data title.toLower.data

/-- `id = item.guid || "humble-" + slug + "-" + Date.now()`. -/
def humbleId (nowMillis : Nat) (item : RSSItem) : String :=
  jsOrStr item.guid ("humble-" ++ slugify item.title ++ "-" ++ toString nowMillis)

/-- Map one Humble RSS item to a deal (the item mapper inside
`parseHumbleFeed`).  `nowMillis` models the `Date.now()` used by the
fallback id. -/
def humbleDealOf (nowMillis : Nat) (item : RSSItem) : GameDeal :=
  { id := humbleId nowMillis item
    title := item.title
    dealID := "humble-" ++ humbleId nowMillis item
    originalPrice := humbleOriginalPrice item.description
    dealPrice := humbleDealPrice item.description
    savings := humbleSavings (humbleIsFree item.title item.description)
        (findPrice item.description.data) (findNowPrice item.description.data)
    datePostedMillis := item.pubDateMillis
    sourceType := "humble" }

/-- `parseHumbleFeed` over the list of feed items (a parse error of the
whole XML yields `[]`, modelled by the caller handing an empty list). -/
def parseHumbleFeed (nowMillis : Nat) (items : List RSSItem) : List GameDeal :=
  items.map (humbleDealOf nowMillis)

/-! ## Storefront-RSS adapter: Epic promotions (`parseEpicGamesFeed`) -/

/-- A promotional window (`startDate`/`endDate`, parsed to millis). -/
structure PromWindow where
  startMillis : Nat
  endMillis : Nat
deriving Repr

/-- `game.promotions`: the two offer arrays, each an array of objects
whose `promotionalOffers` is an array of windows. -/
structure EpicPromotions where
  promotionalOffers : List (List PromWindow)
  upcomingPromotionalOffers : List (List PromWindow)
deriving Repr

/-- One element of `data.Catalog.searchStore.elements`. -/
structure EpicGame where
  id : String
  title : String
  promotions : Option EpicPromotions
  /-- `game.price?.totalPrice?.fmtPrice?.originalPrice` -/
  fmtOriginalPrice : Option String
deriving Repr

/-- `game.promotions?.promotionalOffers?.length > 0` -/
def epicHasCurrent (g : EpicGame) : Bool :=
  match g.promotions with
  | some p => !p.promotionalOffers.isEmpty
  | none => false

/-- `game.promotions?.upcomingPromotionalOffers?.length > 0` -/
def epicHasUpcoming (g : EpicGame) : Bool :=
  match g.promotions with
  | some p => !p.upcomingPromotionalOffers.isEmpty
  | none => false

/-- `formatDate`: `toLocaleDateString('en-US', {month: 'short', day:
'numeric'})`; calendar rendering abstracted to the numeral of the
instant (no claim inspects the text). -/
def formatDate (millis : Nat) : String := toString millis

/-- The promotion window selected by the mapper:
`promotionalOffers[0].promotionalOffers[0]` of the active offers when
present, else of the upcoming offers; the source's literal fallback
window (`now`, `now + 7 days`) otherwise. -/
def epicWindow (nowMillis : Nat) (offers : List (List PromWindow)) : PromWindow :=
  match offers with
  | (w :: _) :: _ => w
  | _ => ⟨nowMillis, nowMillis + 7 * 24 * 60 * 60 * 1000⟩

/-- Map one qualifying Epic element to a deal (the mapper inside
`parseEpicGamesFeed`). -/
def epicDealOf (nowMillis : Nat) (g : EpicGame) : GameDeal :=
  let isUpcoming := !epicHasCurrent g && epicHasUpcoming g
  let window :=
    match g.promotions with
    | some p =>
      if epicHasCurrent g then epicWindow nowMillis p.promotionalOffers
      else if epicHasUpcoming g then epicWindow nowMillis p.upcomingPromotionalOffers
      else ⟨nowMillis, nowMillis + 7 * 24 * 60 * 60 * 1000⟩
    | none => ⟨nowMillis, nowMillis + 7 * 24 * 60 * 60 * 1000⟩
  let title :=
    if isUpcoming then
      "Coming Soon: " ++ g.title ++ " (Free " ++ formatDate window.startMillis ++ ")"
    else g.title
  { id := g.id
    title := title
    dealID := "epic-" ++ g.id
    originalPrice := jsOrStr g.fmtOriginalPrice "Price not available"
    dealPrice := if isUpcoming then "Coming Soon" else "Free"
    savings := "100"
    datePostedMillis := window.startMillis
    sourceType := "epic" }

/-- `parseEpicGamesFeed`: `none` models a payload missing the
`data.Catalog.searchStore.elements` path (the adapter returns `[]`);
otherwise filter to elements with an active or upcoming promotion and
map them. -/
def parseEpicGamesFeed (nowMillis : Nat) (payload : Option (List EpicGame)) : List GameDeal :=
  match payload with
  | none => []
  | some elements =>
    (elements.filter (fun g => epicHasCurrent g || epicHasUpcoming g)).map (epicDealOf nowMillis)

/-! ## Discount-API adapter (`fetchCheapSharkDeals` / `processDeal`,
`src/app/api/fetch-deals/route.ts`, first definition) -/

/-- A raw CheapShark deal record; provider fields may be absent. -/
structure RawDeal where
  dealID : String
  title : String
  normalPrice : Option String
  salePrice : Option String
  savings : Option String
  storeID : Option String
deriving Repr

/-- Outcome of one provider HTTP round trip with payload type `α`:
`ok` carries the decoded body, `httpError` a non-2xx status,
`netError` a network failure. -/
inductive FetchOutcome (α : Type) where
  | ok (payload : α)
  | httpError (status : Nat)
  | netError
deriving Repr

/-- `fetchCheapSharkDeals(limit, minSavings)` after the HTTP exchange:
throws (`Except.error`) on a non-2xx response, a network failure, or a
malformed JSON body (`Option.none` payload); on success applies the
`parseFloat(deal.savings) >= minSavings` filter when `minSavings > 0`.
A `NaN` savings value fails the comparison. -/
def fetchCheapSharkDeals (minSavings : Nat)
    (resp : FetchOutcome (Option (List RawDeal))) : Except String (List RawDeal) :=
  match resp with
  | .netError => .error "fetch failed"
  | .httpError status => .error ("CheapShark API error: " ++ toString status)
  | .ok none => .error "malformed JSON payload"
  | .ok (some deals) =>
    .ok (if 0 < minSavings then
          deals.filter (fun d =>
            match jsParseFloat d.savings with
            | some v => (minSavings : Rat) ≤ v
            | none => false)
        else deals)

/-- `processDeal`: map a raw CheapShark deal to the application format
(first definition in `route.ts`).  `nowMillis` is the `new Date()`
taken inside the function. -/
def processDeal (nowMillis : Nat) (deal : RawDeal) : GameDeal :=
  let originalPrice := "$" ++ ratToFixed2 (jsParseFloat deal.normalPrice)
  let dealPrice :=
    match jsParseFloat deal.salePrice with
    | some v => if v = 0 then "Free" else "$" ++ ratToFixed2 (some v)
    | none => "$" ++ ratToFixed2 none
  { id := deal.dealID
    title := deal.title
    dealID := deal.dealID
    originalPrice := originalPrice
    dealPrice := dealPrice
    savings := jsOrStr deal.savings ""
    datePostedMillis := nowMillis
    sourceType := "cheapshark" }

/-! ## RSS fan-out (`fetchRSSFeeds`, `src/lib/rss.ts`) -/

/-- A configured RSS source (`RSS_SOURCES` entry; the parser field is
carried by the outcome below). -/
structure RSSFeedSource where
  name : String
  type : String
  storeId : String
deriving Repr

/-- The two configured sources of `RSS_SOURCES`. -/
def RSS_SOURCES : List RSSFeedSource :=
  [⟨"Humble Store", "humble", "4"⟩, ⟨"Epic Games Store", "epic", "9"⟩]

/-- What one source's guarded fetch-and-parse produced:
`fetchFailed` covers a network error, a non-2xx response, and a parser
throw (the `catch` arms returning `[]`); `fetched` carries the deals
produced by the source's parser. -/
inductive SourceOutcome where
  | fetchFailed
  | fetched (deals : List GameDeal)
deriving Repr

/-- The deals one source contributes: `[]` on failure, the parser's
result cut to `limit` (`deals.slice(0, limit)`) on success. -/
def sourceContribution (limit : Nat) : SourceOutcome → List GameDeal
  | .fetchFailed => []
  | .fetched deals => deals.take limit

/-- `fetchRSSFeeds(limit)`: every configured source is fetched in
parallel with per-source failure isolation, and the per-source
contributions are flattened in source order.  `outcomes` lists the
per-source results, in the order of `RSS_SOURCES`. -/
def fetchRSSFeeds (limit : Nat) (outcomes : List SourceOutcome) : List GameDeal :=
  (outcomes.map (sourceContribution limit)).flatten

/-! ## Final merge order of the route handlers

Both the POST (cron) handler and the GET handler order the combined
list with
`.sort((a, b) => new Date(b.datePosted).getTime() - new Date(a.datePosted).getTime())`.
`Array.prototype.sort` is a stable sort, so this is the unique stable
sort by `datePosted` descending; realised as a stable insertion sort. -/

/-- Insert `d` after every element whose date is at least `d`'s
(stability for equal dates). -/
def insertByDateDesc (d : GameDeal) : List GameDeal → List GameDeal
  | [] => [d]
  | e :: es =>
    if d.datePostedMillis ≤ e.datePostedMillis then e :: insertByDateDesc d es
    else d :: e :: es

/-- The stable sort by `datePosted` descending used on the combined list. -/
def sortByDateDesc (deals : List GameDeal) : List GameDeal :=
  deals.foldl (fun acc d => insertByDateDesc d acc) []

/-! ## Persistence gateway (`saveDealsToDb`, `src/lib/firebase.ts`)

A deal handed to `saveDealsToDb` is a `Partial<GameDealFromAPI>`: an
open field map.  A Firestore document is likewise a field map.  Both
are association lists whose earlier entries shadow later ones (the
shape produced by object spread, where explicit keys override). -/

/-- An open JS object / Firestore document: fields as an association
list; the first entry for a name is its value. -/
abbrev Doc := List (String × String)

/-- Read a field (`undefined` if absent): the first entry named `nm`. -/
def jsGet : Doc → String → Option String
  | [], _ => none
  | p :: rest, nm => if p.1 == nm then some p.2 else jsGet rest nm

/-- Object-spread override: fields of `new` shadow fields of `old`
(`{...old, ...new}` read with `new` taking precedence).  Also the
`{merge: true}` write semantics of Firestore at field granularity. -/
def mergeFields (old new : Doc) : Doc :=
  new ++ old.filter (fun p => !(new.any (fun q => q.1 == p.1)))

/-- `set(docRef, payload, {merge: true})` against an optional existing
document. -/
def setMergeDoc (old : Option Doc) (payload : Doc) : Doc :=
  match old with
  | none => payload
  | some o => mergeFields o payload

/-- The document store: docId to document, unique keys. -/
abbrev Store := List (String × Doc)

def storeGet : Store → String → Option Doc
  | [], _ => none
  | p :: rest, k => if p.1 == k then some p.2 else storeGet rest k

/-- Replace the binding for `k`, or append one. -/
def storeSet (st : Store) (k : String) (d : Doc) : Store :=
  match st with
  | [] => [(k, d)]
  | (k', d') :: rest => if k' == k then (k, d) :: rest else (k', d') :: storeSet rest k d

/-- Milliseconds in the 30-day retention horizon. -/
def thirtyDaysMs : Nat := 30 * 24 * 60 * 60 * 1000

/-- `docId = deal.dealID || deal.id || composite` — the upsert key
choice of `saveDealsToDb`, with `fb` the per-deal
`deal_${Date.now()}_${random}` composite. -/
def docIdOf (deal : Doc) (fb : String) : String :=
  jsOrStr (jsGet deal "dealID") (jsOrStr (jsGet deal "id") fb)

/-- The metadata fields `saveDealsToDb` attaches to every write, in
object-literal order.  `now` is the single `new Date()` taken at the
start of the invocation; `batch_${timestamp.getTime()}` is the shared
batch id.  `searchableTitle` (`deal.title?.toLowerCase()`) is present
only when the deal has a title. -/
def metaFields (now : Nat) (deal : Doc) : Doc :=
  [("dateAdded", jsOrStr (jsGet deal "dateAdded") (isoOf now)),
   ("lastUpdated", isoOf now),
   ("batchId", "batch_" ++ toString now)]
  ++ (match jsGet deal "title" with
      | some t => [("searchableTitle", t.toLower)]
      | none => [])
  ++ [("dealActiveTimestamp", isoOf now),
      ("expiresAt", isoOf (now + thirtyDaysMs))]

/-- The `dealData` payload of one write: the deal's own fields with the
metadata fields overriding. -/
def dealDataOf (now : Nat) (deal : Doc) : Doc :=
  mergeFields deal (metaFields now deal)

/-- One `batch.set(docRef, dealData, {merge: true})`. -/
def upsertDeal (now : Nat) (fb : String) (deal : Doc) (st : Store) : Store :=
  let k := docIdOf deal fb
  storeSet st k (setMergeDoc (storeGet st k) (dealDataOf now deal))

/-- The `deals.forEach` loop from position `i` (`fresh i` is the
composite fallback id generated for the deal at position `i`). -/
def saveFrom (now : Nat) (fresh : Nat → String) : Nat → List Doc → Store → Store
  | _, [], st => st
  | i, d :: ds, st => saveFrom now fresh (i + 1) ds (upsertDeal now (fresh i) d st)

/-- `saveDealsToDb(deals)` applied to store state `st0`: one batched
upsert of all deals in list order, sharing the invocation timestamp
`now`. -/
def saveDealsToDb (deals : List Doc) (now : Nat) (fresh : Nat → String) (st0 : Store) : Store :=
  saveFrom now fresh 0 deals st0

/-- Serialize a canonical deal to the field map handed to the
persistence layer. -/
def toDoc (g : GameDeal) : Doc :=
  [("id", g.id), ("title", g.title), ("dealID", g.dealID),
   ("originalPrice", g.originalPrice), ("dealPrice", g.dealPrice),
   ("savings", g.savings), ("datePosted", isoOf g.datePostedMillis),
   ("sourceType", g.sourceType)]

/-- The batch-info fields the POST handler spreads onto every deal
before saving (`batchTimestamp`, `lastUpdated`, `fetchMethod`). -/
def addBatchInfo (now : Nat) (deal : Doc) : Doc :=
  mergeFields deal
    [("batchTimestamp", isoOf now), ("lastUpdated", isoOf now), ("fetchMethod", "cron")]

/-! ## The scheduled (POST) trigger path
(`POST` handler, first definition in `route.ts`) -/

/-- Inputs of one POST invocation: the server secret, the request's
`Authorization` header, and the provider outcomes of the run. -/
structure PostEnv where
  cronSecret : Option String
  authHeader : Option String
  cheapResp : FetchOutcome (Option (List RawDeal))
  rssOutcomes : List SourceOutcome
  nowMillis : Nat
deriving Repr

/-- Observable result of one POST invocation: the HTTP status, the
number of adapter HTTP fetches started, and the deal list handed to
`saveDealsToDb` (`none` when persistence was never reached). -/
structure PostResult where
  status : Nat
  fetchCalls : Nat
  saved : Option (List Doc)
deriving Repr

/-- The cron-job POST limits: `DEFAULT_RSS_LIMIT * 2`. -/
def cronRssLimit : Nat := 10

/-- The POST handler: reject with 500 when `CRON_SECRET` is unset, with
401 when the `Authorization` header does not equal `Bearer <secret>`
(both before any fetch); otherwise fetch CheapShark (min savings 25)
and the RSS sources in parallel, degrade to 500 with nothing persisted
when the CheapShark fetch throws, else sort the combined list by date
descending, attach batch info and persist. -/
def runPOST (env : PostEnv) : PostResult :=
  match env.cronSecret with
  | none => ⟨500, 0, none⟩
  | some secret =>
    if env.authHeader ≠ some ("Bearer " ++ secret) then ⟨401, 0, none⟩
    else
      let fetches := 1 + env.rssOutcomes.length
      match fetchCheapSharkDeals 25 env.cheapResp with
      | .error _ => ⟨500, fetches, none⟩
      | .ok raw =>
        let processed := raw.map (processDeal env.nowMillis)
        let rss := fetchRSSFeeds cronRssLimit env.rssOutcomes
        let allDeals := sortByDateDesc (processed ++ rss)
        ⟨200, fetches, some (allDeals.map (fun d => addBatchInfo env.nowMillis (toDoc d)))⟩

/-! ## Derived notions used by the statements -/

/-- The order of the final list: `datePosted` descending. -/
def dateDescOrder (a b : GameDeal) : Prop :=
  b.datePostedMillis ≤ a.datePostedMillis

/-- The per-write metadata contract of `saveDealsToDb`: the shared batch
identifier, the write-time `lastUpdated` stamp, and the retention expiry
exactly 30 days after the write time. -/
def metaOK (now : Nat) (doc : Doc) : Prop :=
  jsGet doc "batchId" = some ("batch_" ++ toString now) ∧
  jsGet doc "lastUpdated" = some (isoOf now) ∧
  jsGet doc "expiresAt" = some (isoOf (now + thirtyDaysMs))

/-! ## Concrete sample inputs used by counterexamples and witnesses -/

/-- Deal A of the spec's ranking example: free, posted yesterday. -/
def dealA : GameDeal :=
  ⟨"A", "Free Game A", "deal-A", "$20.00", "Free", "100", 1757462400000, "rss"⟩

/-- Deal B of the spec's ranking example: `$10`, 50% off, posted today. -/
def dealB : GameDeal :=
  ⟨"B", "Game B", "deal-B", "$20.00", "$10.00", "50", 1757548800000, "cheapshark"⟩

/-- Deal C of the spec's ranking example: `$5`, 80% off, posted today. -/
def dealC : GameDeal :=
  ⟨"C", "Game C", "deal-C", "$25.00", "$5.00", "80", 1757548800000, "cheapshark"⟩

/-- A scheduled run with valid credentials in which the CheapShark
provider answers with HTTP 500 while the Humble source has a deal and
the Epic source fails. -/
def c1Env : PostEnv :=
  { cronSecret := some "secret"
    authHeader := some "Bearer secret"
    cheapResp := .httpError 500
    rssOutcomes := [.fetched [dealA], .fetchFailed]
    nowMillis := 1757548800000 }

/-- Two source deals sharing one `dealID`; the first one in
concatenation order carries the older `datePosted`. -/
def c3first : GameDeal :=
  ⟨"K", "first in concatenation order", "dup-key", "$20.00", "$10.00", "50", 1000, "cheapshark"⟩

/-- The second, later-posted deal with the same `dealID`. -/
def c3second : GameDeal :=
  ⟨"K", "second in concatenation order", "dup-key", "$20.00", "$8.00", "60", 2000, "rss"⟩

/-- The store persisted by a run whose merged input is
`[c3first, c3second]`: the pipeline sorts by date descending, attaches
batch info and upserts into an empty store. -/
def c3persisted : Store :=
  saveDealsToDb
    ((sortByDateDesc [c3first, c3second]).map (fun d => addBatchInfo 3000 (toDoc d)))
    3000 (fun _ => "fallback") []

/-- A Humble feed item whose description carries no dollar amount. -/
def c4item : RSSItem :=
  ⟨"Indie Bundle", "https://www.humblebundle.com/store/indie", "A lovely bundle of games", 500, some "guid-1"⟩

/-- A raw CheapShark record whose sale price is zero while the
provider-supplied savings percent is not 100 (the value 30 also passes
the adapter's minimum-savings filter). -/
def c5raw : RawDeal :=
  { dealID := "cs-free"
    title := "Suddenly Free"
    normalPrice := some "10.00"
    salePrice := some "0.00"
    savings := some "30.0"
    storeID := some "1" }

/-- A Humble feed item advertised as free (no `now $` phrase). -/
def c5item : RSSItem :=
  ⟨"Free Game Friday", "https://www.humblebundle.com/store/fgf", "Grab it while it lasts", 600, some "guid-2"⟩

/-- A deal record carrying both a `dealID` and a distinct `id`, the
shape produced by the Humble adapter. -/
def c9deal : Doc := [("id", "g1"), ("dealID", "humble-g1"), ("title", "Some Game")]

/-- A deal record with neither `dealID` nor `id`. -/
def c9anon : Doc := [("title", "Anonymous Deal")]

/-- A pre-existing document used to exercise merge preservation. -/
def c8oldDoc : Doc := [("legacyField", "kept"), ("title", "Old Title")]

/-- The update written over `c8oldDoc` (same key, no `legacyField`). -/
def c8newDeal : Doc := [("dealID", "doc-1"), ("title", "New Title")]

/-! # Theorems -/

/-! ## Tracking-parameter augmentation (C6) -/

/-- Every application of `addTrackingParameters` grows the string by the
same fixed amount over the url plus the campaign source. -/
theorem addTracking_length (u s : String) :
    (addTrackingParameters u s).length = u.length + s.length + 61 := by
  have hb : ("utm_source=dailygamedrops&utm_medium=affiliate&utm_campaign=" : String).length = 60 := rfl
  have h1 : ("&" : String).length = 1 := rfl
  have h2 : ("?" : String).length = 1 := rfl
  unfold addTrackingParameters
  by_cases h : u.data.contains '?' <;>
    simp only [h, if_true, if_false, Bool.false_eq_true, String.length_append, hb, h1, h2] <;>
    omega

/-- C6: `addTrackingParameters` is a pure string operation appending the
`utm_source`/`utm_medium`/`utm_campaign` parameters, choosing `&` vs `?`
by whether the URL already has a query string — but it is **not**
idempotent: a second application appends a second copy of the
parameters, so applying it twice never yields the once-applied string. -/
theorem c6_tracking_append_not_idempotent :
    ∀ (url source : String),
      addTrackingParameters url source =
        url ++ (if url.data.contains '?' then "&" else "?") ++
          "utm_source=dailygamedrops&utm_medium=affiliate&utm_campaign=" ++ source ∧
      addTrackingParameters (addTrackingParameters url source) source ≠
        addTrackingParameters url source := by
  intro url source
  refine ⟨rfl, fun h => ?_⟩
  have hl := congrArg String.length h
  rw [addTracking_length, addTracking_length] at hl
  omega

/-- C6 counterexample: applying `addTrackingParameters` twice to a
concrete URL does not equal applying it once, refuting the claimed
idempotency. -/
theorem c6_double_application_differs :
    addTrackingParameters
        (addTrackingParameters "https://store.steampowered.com/app/620" "homepage") "homepage" ≠
      addTrackingParameters "https://store.steampowered.com/app/620" "homepage" := by
  decide

/-! ## Scheduled-trigger authorization (C7) -/

/-- C7: on the scheduled POST path, any request whose bearer token is
missing or differs from the server-held secret is rejected with a 401
authorization error, with zero adapter fetches and nothing handed to
the persistence layer. -/
theorem c7_unauthorized_rejected_before_any_work
    (env : PostEnv) (secret : String)
    (hs : env.cronSecret = some secret)
    (ha : env.authHeader ≠ some ("Bearer " ++ secret)) :
    (runPOST env).status = 401 ∧ (runPOST env).fetchCalls = 0 ∧ (runPOST env).saved = none := by
  obtain ⟨cs, ah, cr, ro, nm⟩ := env
  simp only [PostEnv.cronSecret] at hs
  simp only [PostEnv.authHeader] at ha
  subst hs
  simp [runPOST, if_pos ha]

/-- C7 witness: a concrete request with no `Authorization` header
against a configured secret is rejected with 401 and does no work. -/
theorem c7_witness :
    (runPOST ⟨some "secret", none, FetchOutcome.netError, [], 0⟩).status = 401 ∧
    (runPOST ⟨some "secret", none, FetchOutcome.netError, [], 0⟩).fetchCalls = 0 ∧
    (runPOST ⟨some "secret", none, FetchOutcome.netError, [], 0⟩).saved = none :=
  c7_unauthorized_rejected_before_any_work _ "secret" rfl (by decide)

/-! ## RSS per-source limit (C10) -/

/-- Each source contributes at most `n` deals. -/
theorem sourceContribution_length_le (n : Nat) (o : SourceOutcome) :
    (sourceContribution n o).length ≤ n := by
  cases o with
  | fetchFailed => simp [sourceContribution]
  | fetched ds => simp [sourceContribution]

/-- The flattened result is bounded by `n` per outcome. -/
theorem fetchRSS_length_le (n : Nat) (outs : List SourceOutcome) :
    (fetchRSSFeeds n outs).length ≤ n * outs.length := by
  induction outs with
  | nil => simp [fetchRSSFeeds]
  | cons o rest ih =>
    have hcons : fetchRSSFeeds n (o :: rest) =
        sourceContribution n o ++ fetchRSSFeeds n rest := by
      simp [fetchRSSFeeds]
    rw [hcons, List.length_append, List.length_cons, Nat.mul_succ]
    have ho := sourceContribution_length_le n o
    omega

/-- C10: `fetchRSSFeeds(n)` returns at most `n` deals per configured RSS
source, hence at most `n * |RSS_SOURCES|` (currently `n * 2`) in total:
the limit bounds each source's contribution before concatenation. -/
theorem c10_rss_limit_bounds_each_source :
    (∀ (n : Nat) (o : SourceOutcome), (sourceContribution n o).length ≤ n) ∧
    (∀ (n : Nat) (outcomes : List SourceOutcome),
      outcomes.length = RSS_SOURCES.length →
      (fetchRSSFeeds n outcomes).length ≤ n * RSS_SOURCES.length) := by
  refine ⟨sourceContribution_length_le, fun n outs h => ?_⟩
  have := fetchRSS_length_le n outs
  rwa [h] at this

/-- C10 witness: a run over the two configured sources with limit 7
produces at most 14 deals. -/
theorem c10_witness :
    ([SourceOutcome.fetched [dealA], SourceOutcome.fetchFailed] : List SourceOutcome).length =
      RSS_SOURCES.length ∧
    (fetchRSSFeeds 7 [SourceOutcome.fetched [dealA], SourceOutcome.fetchFailed]).length ≤
      7 * RSS_SOURCES.length :=
  ⟨rfl, c10_rss_limit_bounds_each_source.2 7 _ rfl⟩

/-! ## Adapter failure isolation (C1) -/

/-- C1 (amended): each RSS source degrades to an empty contribution on
failure without disturbing the other sources' contributions; the
CheapShark adapter of the scheduled path, however, raises
(`Except.error`) on a non-2xx response, a network failure, or a
malformed payload, and an authenticated run in which it raises
persists nothing — including the RSS results fetched in the same run. -/
theorem c1_rss_isolated_but_cheapshark_raises :
    (∀ (n : Nat) (pre post : List SourceOutcome),
      fetchRSSFeeds n (pre ++ SourceOutcome.fetchFailed :: post) =
        fetchRSSFeeds n pre ++ fetchRSSFeeds n post) ∧
    (∀ (minSavings status : Nat),
      fetchCheapSharkDeals minSavings (FetchOutcome.httpError status) =
        Except.error ("CheapShark API error: " ++ toString status)) ∧
    (∀ minSavings : Nat,
      fetchCheapSharkDeals minSavings FetchOutcome.netError = Except.error "fetch failed" ∧
      fetchCheapSharkDeals minSavings (FetchOutcome.ok none) =
        Except.error "malformed JSON payload") ∧
    (∀ (env : PostEnv) (secret msg : String),
      env.cronSecret = some secret →
      env.authHeader = some ("Bearer " ++ secret) →
      fetchCheapSharkDeals 25 env.cheapResp = Except.error msg →
      (runPOST env).saved = none ∧ (runPOST env).status = 500) := by
  refine ⟨?_, fun _ _ => rfl, fun _ => ⟨rfl, rfl⟩, ?_⟩
  · intro n pre post
    simp [fetchRSSFeeds, sourceContribution]
  · intro env secret msg h1 h2 h3
    obtain ⟨cs, ah, cr, ro, nm⟩ := env
    simp only [PostEnv.cronSecret] at h1
    simp only [PostEnv.authHeader] at h2
    simp only [PostEnv.cheapResp] at h3
    subst h1
    subst h2
    simp [runPOST, h3]

/-- C1 witness: for the concrete run `c1Env` (valid credentials,
CheapShark answering HTTP 500) the run persists nothing and reports a
500 error. -/
theorem c1_witness :
    (runPOST c1Env).saved = none ∧ (runPOST c1Env).status = 500 :=
  c1_rss_isolated_but_cheapshark_raises.2.2.2 c1Env "secret"
    "CheapShark API error: 500" rfl (by decide) rfl

/-- C1 counterexample: in the run `c1Env` the CheapShark provider is
merely unavailable (HTTP 500), yet the adapter raises instead of
resolving to an empty list, and the non-empty RSS results of the same
run never reach the persisted set. -/
theorem c1_cheapshark_failure_blocks_other_adapters :
    (runPOST c1Env).saved = none ∧ (runPOST c1Env).status = 500 ∧
    fetchRSSFeeds cronRssLimit c1Env.rssOutcomes ≠ [] := by
  decide

/-! ## Final ordering of a run's deal list (C2) -/

/-- Inserting into the date-descending order permutes the extended list. -/
theorem insertByDateDesc_perm (d : GameDeal) (l : List GameDeal) :
    List.Perm (insertByDateDesc d l) (d :: l) := by
  induction l with
  | nil => exact List.Perm.refl _
  | cons e es ih =>
    by_cases h : d.datePostedMillis ≤ e.datePostedMillis
    · simp only [insertByDateDesc, if_pos h]
      exact (ih.cons e).trans (List.Perm.swap d e es)
    · simp only [insertByDateDesc, if_neg h]
      exact List.Perm.refl _

/-- Membership in the insertion result. -/
theorem mem_insertByDateDesc {x d : GameDeal} {l : List GameDeal} :
    x ∈ insertByDateDesc d l ↔ x = d ∨ x ∈ l := by
  rw [(insertByDateDesc_perm d l).mem_iff, List.mem_cons]

/-- Insertion preserves the pairwise date-descending order. -/
theorem insertByDateDesc_pairwise (d : GameDeal) {l : List GameDeal}
    (h : l.Pairwise dateDescOrder) :
    (insertByDateDesc d l).Pairwise dateDescOrder := by
  induction l with
  | nil => simp [insertByDateDesc, dateDescOrder]
  | cons e es ih =>
    rw [List.pairwise_cons] at h
    obtain ⟨he, hes⟩ := h
    by_cases hle : d.datePostedMillis ≤ e.datePostedMillis
    · simp only [insertByDateDesc, if_pos hle]
      rw [List.pairwise_cons]
      refine ⟨fun x hx => ?_, ih hes⟩
      rcases mem_insertByDateDesc.1 hx with hx | hx
      · subst hx; exact hle
      · exact he x hx
    · simp only [insertByDateDesc, if_neg hle]
      rw [List.pairwise_cons]
      refine ⟨fun x hx => ?_, List.Pairwise.cons he hes⟩
      rcases List.mem_cons.1 hx with hx | hx
      · subst hx; exact Nat.le_of_not_le hle
      · exact Nat.le_trans (he x hx) (Nat.le_of_not_le hle)

/-- The insertion-sort fold permutes its input onto the accumulator. -/
theorem foldl_insert_perm (l : List GameDeal) :
    ∀ acc : List GameDeal,
      List.Perm (List.foldl (fun a d => insertByDateDesc d a) acc l) (l ++ acc) := by
  induction l with
  | nil => intro acc; exact List.Perm.refl _
  | cons d ds ih =>
    intro acc
    exact ((ih _).trans
      ((List.Perm.append_left ds (insertByDateDesc_perm d acc)).trans List.perm_middle))

/-- The sort permutes its input. -/
theorem sortByDateDesc_perm (l : List GameDeal) : List.Perm (sortByDateDesc l) l := by
  have h := foldl_insert_perm l []
  rw [List.append_nil] at h
  exact h

/-- The insertion-sort fold preserves pairwise sortedness. -/
theorem foldl_insert_pairwise (l : List GameDeal) :
    ∀ acc : List GameDeal, acc.Pairwise dateDescOrder →
      (List.foldl (fun a d => insertByDateDesc d a) acc l).Pairwise dateDescOrder := by
  induction l with
  | nil => intro acc h; exact h
  | cons d ds ih => intro acc h; exact ih _ (insertByDateDesc_pairwise d h)

/-- The sort's output is pairwise date-descending. -/
theorem sortByDateDesc_pairwise (l : List GameDeal) :
    (sortByDateDesc l).Pairwise dateDescOrder :=
  foldl_insert_pairwise l [] List.Pairwise.nil

/-- C2 (amended): the final deal list of a run is the stable sort of the
merged input by `datePosted` descending — free deals and
`savingsPercent` play no role — and on the spec's example input
A (Free, yesterday), B ($10, 50%, today), C ($5, 80%, today) the output
order is B, C, A. -/
theorem c2_final_list_sorted_by_date_desc :
    (∀ l : List GameDeal,
      (sortByDateDesc l).Pairwise dateDescOrder ∧ List.Perm (sortByDateDesc l) l) ∧
    sortByDateDesc [dealA, dealB, dealC] = [dealB, dealC, dealA] := by
  exact ⟨fun l => ⟨sortByDateDesc_pairwise l, sortByDateDesc_perm l⟩, by decide⟩

/-- C2 counterexample: on the spec's own example input the final order
is not A, C, B — the free deal A sorts last because it was posted
earlier, refuting the free-first/savings-descending ordering. -/
theorem c2_order_not_free_first :
    sortByDateDesc [dealA, dealB, dealC] ≠ [dealA, dealC, dealB] := by
  decide

/-! ## Persistence-gateway lemmas -/

/-- Field lookup on a cons cell. -/
theorem jsGet_cons (p : String × String) (rest : Doc) (nm : String) :
    jsGet (p :: rest) nm = if p.1 == nm then some p.2 else jsGet rest nm := rfl

/-- A field found in the left part of an append is found in the whole. -/
theorem jsGet_append_some {l1 : Doc} {nm v : String} (h : jsGet l1 nm = some v)
    (l2 : Doc) : jsGet (l1 ++ l2) nm = some v := by
  induction l1 with
  | nil => exact Option.noConfusion h
  | cons p rest ih =>
    rw [jsGet_cons] at h
    rw [List.cons_append, jsGet_cons]
    by_cases hp : p.1 == nm
    · rw [if_pos hp] at h ⊢; exact h
    · rw [if_neg hp] at h ⊢; exact ih h

/-- A field absent from the left part of an append is looked up in the
right part. -/
theorem jsGet_append_none {l1 : Doc} {nm : String} (h : jsGet l1 nm = none)
    (l2 : Doc) : jsGet (l1 ++ l2) nm = jsGet l2 nm := by
  induction l1 with
  | nil => rfl
  | cons p rest ih =>
    rw [jsGet_cons] at h
    rw [List.cons_append, jsGet_cons]
    by_cases hp : p.1 == nm
    · rw [if_pos hp] at h; exact Option.noConfusion h
    · rw [if_neg hp] at h ⊢; exact ih h

/-- Filtering with a predicate that keeps every `nm`-field does not
change the `nm` lookup. -/
theorem jsGet_filter {l : Doc} {pred : String × String → Bool} {nm : String}
    (h : ∀ p : String × String, p.1 = nm → pred p = true) :
    jsGet (l.filter pred) nm = jsGet l nm := by
  induction l with
  | nil => rfl
  | cons p rest ih =>
    by_cases hp : p.1 == nm
    · have hpred : pred p = true := h p (by simpa using hp)
      rw [List.filter_cons_of_pos hpred, jsGet_cons, jsGet_cons, if_pos hp, if_pos hp]
    · by_cases hf : pred p = true
      · rw [List.filter_cons_of_pos hf, jsGet_cons, jsGet_cons, if_neg hp, if_neg hp]
        exact ih
      · rw [List.filter_cons_of_neg (by simpa using hf), jsGet_cons, if_neg hp]
        exact ih

/-- A document with no `nm` field has no entry named `nm`. -/
theorem any_eq_false_of_jsGet_none {l : Doc} {nm : String} (h : jsGet l nm = none) :
    l.any (fun q => q.1 == nm) = false := by
  induction l with
  | nil => rfl
  | cons p rest ih =>
    rw [jsGet_cons] at h
    by_cases hp : p.1 == nm
    · rw [if_pos hp] at h; exact Option.noConfusion h
    · rw [if_neg hp] at h
      simp only [List.any_cons, Bool.or_eq_false_iff]
      exact ⟨by simpa using hp, ih h⟩

/-- Override semantics: a field of `new` wins. -/
theorem jsGet_mergeFields_of_new {old new : Doc} {nm v : String}
    (h : jsGet new nm = some v) : jsGet (mergeFields old new) nm = some v :=
  jsGet_append_some h _

/-- Override semantics: a field absent from `new` falls through to `old`. -/
theorem jsGet_mergeFields_of_none {old new : Doc} {nm : String}
    (h : jsGet new nm = none) : jsGet (mergeFields old new) nm = jsGet old nm := by
  unfold mergeFields
  rw [jsGet_append_none h]
  exact jsGet_filter (fun p hp => by
    have hany := any_eq_false_of_jsGet_none h
    simp only [hp, hany]
    rfl)

/-- A field present in the payload of a merge-write is readable
afterwards with the payload's value. -/
theorem jsGet_setMerge_payload {o : Option Doc} {payload : Doc} {nm v : String}
    (h : jsGet payload nm = some v) : jsGet (setMergeDoc o payload) nm = some v := by
  cases o with
  | none => exact h
  | some doc0 => exact jsGet_mergeFields_of_new h

/-- A field absent from the payload of a merge-write keeps the
pre-existing document's value. -/
theorem jsGet_setMerge_preserved {doc0 payload : Doc} {nm : String}
    (h : jsGet payload nm = none) :
    jsGet (setMergeDoc (some doc0) payload) nm = jsGet doc0 nm :=
  jsGet_mergeFields_of_none h

/-- The metadata block carries the batch id, the write-time stamp and
the 30-day expiry. -/
theorem jsGet_metaFields (now : Nat) (deal : Doc) :
    jsGet (metaFields now deal) "batchId" = some ("batch_" ++ toString now) ∧
    jsGet (metaFields now deal) "lastUpdated" = some (isoOf now) ∧
    jsGet (metaFields now deal) "expiresAt" = some (isoOf (now + thirtyDaysMs)) := by
  unfold metaFields
  cases ht : jsGet deal "title" <;> exact ⟨rfl, rfl, rfl⟩

/-- Every merge-written `dealData` payload satisfies the metadata
contract, whatever the pre-existing document. -/
theorem metaOK_dealData (now : Nat) (deal : Doc) (o : Option Doc) :
    metaOK now (setMergeDoc o (dealDataOf now deal)) := by
  obtain ⟨h1, h2, h3⟩ := jsGet_metaFields now deal
  exact ⟨jsGet_setMerge_payload (jsGet_mergeFields_of_new h1),
         jsGet_setMerge_payload (jsGet_mergeFields_of_new h2),
         jsGet_setMerge_payload (jsGet_mergeFields_of_new h3)⟩

/-- Store lookup on a cons cell. -/
theorem storeGet_cons (p : String × Doc) (rest : Store) (k : String) :
    storeGet (p :: rest) k = if p.1 == k then some p.2 else storeGet rest k := rfl

/-- Reading the key just written returns the written document. -/
theorem storeGet_storeSet_self (st : Store) (k : String) (d : Doc) :
    storeGet (storeSet st k d) k = some d := by
  induction st with
  | nil =>
    show storeGet [(k, d)] k = some d
    rw [storeGet_cons, if_pos (beq_self_eq_true k)]
  | cons q rest ih =>
    by_cases hq : q.1 == k
    · simp only [storeSet, if_pos hq]
      rw [storeGet_cons, if_pos (beq_self_eq_true k)]
    · simp only [storeSet, if_neg hq]
      rw [storeGet_cons, if_neg hq]
      exact ih

/-- Writing one key leaves every other key's document unchanged. -/
theorem storeGet_storeSet_ne (st : Store) (k k' : String) (d : Doc) (h : k' ≠ k) :
    storeGet (storeSet st k d) k' = storeGet st k' := by
  have hkk : ¬((k == k') = true) := fun hb => h (eq_of_beq hb).symm
  induction st with
  | nil =>
    show storeGet [(k, d)] k' = storeGet [] k'
    rw [storeGet_cons, if_neg hkk]
  | cons q rest ih =>
    by_cases hq : q.1 == k
    · simp only [storeSet, if_pos hq]
      rw [storeGet_cons, storeGet_cons, if_neg hkk]
      have : q.1 = k := eq_of_beq hq
      rw [this, if_neg hkk]
    · simp only [storeSet, if_neg hq]
      rw [storeGet_cons, storeGet_cons, ih]

/-- Splitting the upsert loop at an append boundary. -/
theorem saveFrom_append (now : Nat) (fresh : Nat → String) (l1 : List Doc) :
    ∀ (l2 : List Doc) (i : Nat) (st : Store),
      saveFrom now fresh i (l1 ++ l2) st =
        saveFrom now fresh (i + l1.length) l2 (saveFrom now fresh i l1 st) := by
  induction l1 with
  | nil => intro l2 i st; simp [saveFrom]
  | cons d ds ih =>
    intro l2 i st
    show saveFrom now fresh (i + 1) (ds ++ l2) (upsertDeal now (fresh i) d st) = _
    rw [ih l2 (i + 1) _]
    have hlen : i + 1 + ds.length = i + (ds.length + 1) := by omega
    rw [hlen]
    rfl

/-- A run of upserts none of which targets key `k` leaves `k` unchanged. -/
theorem saveFrom_unwritten (now : Nat) (fresh : Nat → String) (k : String) :
    ∀ (l : List Doc) (i : Nat) (st : Store),
      (∀ idx d, l.get? idx = some d → docIdOf d (fresh (i + idx)) ≠ k) →
      storeGet (saveFrom now fresh i l st) k = storeGet st k := by
  intro l
  induction l with
  | nil => intro i st _; rfl
  | cons d ds ih =>
    intro i st h
    show storeGet (saveFrom now fresh (i + 1) ds (upsertDeal now (fresh i) d st)) k = _
    rw [ih (i + 1) _ (fun idx d' hd' => by
      have hh := h (idx + 1) d' hd'
      have heq : i + (idx + 1) = i + 1 + idx := by omega
      rwa [heq] at hh)]
    unfold upsertDeal
    exact storeGet_storeSet_ne _ _ _ _ (Ne.symm (h 0 d rfl))

/-- Keys of a store after a write. -/
theorem mem_keys_storeSet {st : Store} {k x : String} {d : Doc}
    (h : x ∈ (storeSet st k d).map Prod.fst) : x ∈ st.map Prod.fst ∨ x = k := by
  induction st with
  | nil =>
    simp only [storeSet, List.map_cons, List.map_nil, List.mem_cons,
      List.not_mem_nil, or_false] at h
    exact Or.inr h
  | cons q rest ih =>
    by_cases hq : q.1 == k
    · simp only [storeSet, if_pos hq, List.map_cons, List.mem_cons] at h
      rcases h with h | h
      · exact Or.inr h
      · exact Or.inl (List.mem_cons.2 (Or.inr h))
    · simp only [storeSet, if_neg hq, List.map_cons, List.mem_cons] at h
      rcases h with h | h
      · exact Or.inl (List.mem_cons.2 (Or.inl h))
      · rcases ih h with h' | h'
        · exact Or.inl (List.mem_cons.2 (Or.inr h'))
        · exact Or.inr h'

/-- A write preserves key uniqueness. -/
theorem keys_nodup_storeSet {st : Store} (k : String) (d : Doc)
    (h : (st.map Prod.fst).Nodup) : ((storeSet st k d).map Prod.fst).Nodup := by
  induction st with
  | nil => simp [storeSet]
  | cons q rest ih =>
    simp only [List.map_cons, List.nodup_cons] at h
    obtain ⟨hq', hrest⟩ := h
    by_cases hq : q.1 == k
    · simp only [storeSet, if_pos hq, List.map_cons, List.nodup_cons]
      refine ⟨?_, hrest⟩
      have hqe : q.1 = k := eq_of_beq hq
      rw [← hqe]
      exact hq'
    · simp only [storeSet, if_neg hq, List.map_cons, List.nodup_cons]
      refine ⟨fun hmem => ?_, ih hrest⟩
      rcases mem_keys_storeSet hmem with h' | h'
      · exact hq' h'
      · exact hq (by simp [h'])

/-- The whole upsert loop preserves key uniqueness. -/
theorem keys_nodup_saveFrom (now : Nat) (fresh : Nat → String) :
    ∀ (l : List Doc) (i : Nat) (st : Store), (st.map Prod.fst).Nodup →
      ((saveFrom now fresh i l st).map Prod.fst).Nodup := by
  intro l
  induction l with
  | nil => intro i st h; exact h
  | cons d ds ih => intro i st h; exact ih (i + 1) _ (keys_nodup_storeSet _ _ h)

/-- Every key written during the loop ends up holding a document that
satisfies the metadata contract. -/
theorem saveFrom_written_meta (now : Nat) (fresh : Nat → String) (k : String) :
    ∀ (l : List Doc) (i : Nat) (st : Store),
      (∃ idx d, l.get? idx = some d ∧ docIdOf d (fresh (i + idx)) = k) →
      ∃ doc, storeGet (saveFrom now fresh i l st) k = some doc ∧ metaOK now doc := by
  intro l
  induction l with
  | nil =>
    rintro i st ⟨idx, d, hd, -⟩
    simp at hd
  | cons d ds ih =>
    rintro i st ⟨idx, d0, hd0, hk0⟩
    show ∃ doc,
      storeGet (saveFrom now fresh (i + 1) ds (upsertDeal now (fresh i) d st)) k = some doc ∧
        metaOK now doc
    by_cases hrest : ∃ idx' d', ds.get? idx' = some d' ∧ docIdOf d' (fresh (i + 1 + idx')) = k
    · exact ih (i + 1) _ hrest
    · push_neg at hrest
      cases idx with
      | succ n =>
        exfalso
        have hget : ds.get? n = some d0 := hd0
        have hk' : docIdOf d0 (fresh (i + 1 + n)) = k := by
          have heq : i + (n + 1) = i + 1 + n := by omega
          rwa [heq] at hk0
        exact hrest n d0 hget hk'
      | zero =>
        have hd : d0 = d := by
          have : some d0 = some d := hd0.symm.trans rfl
          exact (Option.some.injEq _ _ ▸ this : d0 = d)
        subst hd
        have hkey : docIdOf d0 (fresh i) = k := by
          have heq : i + 0 = i := by omega
          rwa [heq] at hk0
        rw [saveFrom_unwritten now fresh k ds (i + 1) _ hrest]
        unfold upsertDeal
        rw [hkey]
        exact ⟨_, storeGet_storeSet_self _ _ _, metaOK_dealData now d0 _⟩

/-- Unfolding one step of the upsert loop. -/
theorem saveFrom_cons (now : Nat) (fresh : Nat → String) (i : Nat) (d : Doc)
    (ds : List Doc) (st : Store) :
    saveFrom now fresh i (d :: ds) st =
      saveFrom now fresh (i + 1) ds (upsertDeal now (fresh i) d st) := rfl

/-! ## Batch metadata and merge semantics (C8) -/

/-- C8: every document written by one `saveDealsToDb` invocation carries
the batch identifier shared by the whole invocation, a write-time
`lastUpdated` timestamp, and an `expiresAt` exactly 30 days after the
write time — independent of any `expiryDate` field of the deal — and
each write uses merge semantics, so pre-existing document fields absent
from the new payload are preserved. -/
theorem c8_batch_metadata_and_merge_semantics :
    (∀ (st0 : Store) (now : Nat) (fresh : Nat → String) (deals : List Doc)
        (idx : Nat) (d : Doc),
      deals.get? idx = some d →
      ∃ doc,
        storeGet (saveDealsToDb deals now fresh st0) (docIdOf d (fresh idx)) = some doc ∧
        metaOK now doc) ∧
    (∀ (st0 : Store) (now : Nat) (fresh : Nat → String) (deal doc0 : Doc)
        (k nm v : String),
      storeGet st0 k = some doc0 →
      jsGet doc0 nm = some v →
      jsGet (dealDataOf now deal) nm = none →
      docIdOf deal (fresh 0) = k →
      ∃ doc, storeGet (saveDealsToDb [deal] now fresh st0) k = some doc ∧
        jsGet doc nm = some v) := by
  constructor
  · intro st0 now fresh deals idx d hd
    exact saveFrom_written_meta now fresh _ deals 0 st0 ⟨idx, d, hd, by rw [Nat.zero_add]⟩
  · intro st0 now fresh deal doc0 k nm v h0 hv hnone hk
    show ∃ doc,
      storeGet (storeSet st0 (docIdOf deal (fresh 0))
          (setMergeDoc (storeGet st0 (docIdOf deal (fresh 0)))
            (dealDataOf now deal))) k = some doc ∧
        jsGet doc nm = some v
    rw [hk, h0]
    exact ⟨_, storeGet_storeSet_self _ _ _, by
      rw [jsGet_setMerge_preserved hnone]; exact hv⟩

/-- C8 witness: writing `c8newDeal` over the pre-existing `c8oldDoc`
yields a document with the invocation metadata, and the old document's
`legacyField` (absent from the payload) survives. -/
theorem c8_witness :
    (∃ doc,
      storeGet (saveDealsToDb [c8newDeal] 3000 (fun _ => "fb") [("doc-1", c8oldDoc)])
          (docIdOf c8newDeal "fb") = some doc ∧ metaOK 3000 doc) ∧
    (∃ doc,
      storeGet (saveDealsToDb [c8newDeal] 3000 (fun _ => "fb") [("doc-1", c8oldDoc)])
          "doc-1" = some doc ∧ jsGet doc "legacyField" = some "kept") :=
  ⟨c8_batch_metadata_and_merge_semantics.1 [("doc-1", c8oldDoc)] 3000 (fun _ => "fb")
      [c8newDeal] 0 c8newDeal rfl,
   c8_batch_metadata_and_merge_semantics.2 [("doc-1", c8oldDoc)] 3000 (fun _ => "fb")
      c8newDeal c8oldDoc "doc-1" "legacyField" "kept" (by decide) (by decide) (by decide)
      (by decide)⟩

/-! ## Last-one-wins deduplication at the persistence step (C3) -/

/-- C3 (amended): within one batched upsert, deals sharing one document
key collapse to a single document — key uniqueness is preserved — and
the surviving document carries the payload of the **last such deal in
the order handed to the persistence step**.  On the scheduled path that
order is the date-descending sorted order, not the concatenation order
of the source results. -/
theorem c3_last_write_wins_at_persistence
    (st0 : Store) (now : Nat) (fresh : Nat → String)
    (pre post : List Doc) (d2 : Doc) (k : String)
    (h0 : (st0.map Prod.fst).Nodup)
    (_hdup : ∃ i d1, pre.get? i = some d1 ∧ docIdOf d1 (fresh i) = k)
    (hk : docIdOf d2 (fresh pre.length) = k)
    (hpost : ∀ idx d, post.get? idx = some d →
      docIdOf d (fresh (pre.length + 1 + idx)) ≠ k) :
    ((saveDealsToDb (pre ++ d2 :: post) now fresh st0).map Prod.fst).Nodup ∧
    ∃ doc, storeGet (saveDealsToDb (pre ++ d2 :: post) now fresh st0) k = some doc ∧
      ∀ nm v, jsGet (dealDataOf now d2) nm = some v → jsGet doc nm = some v := by
  refine ⟨keys_nodup_saveFrom now fresh _ 0 st0 h0, ?_⟩
  unfold saveDealsToDb
  rw [saveFrom_append now fresh pre (d2 :: post) 0 st0, Nat.zero_add, saveFrom_cons,
    saveFrom_unwritten now fresh k post (pre.length + 1) _ hpost]
  unfold upsertDeal
  rw [hk]
  exact ⟨_, storeGet_storeSet_self _ _ _, fun nm v hv => jsGet_setMerge_payload hv⟩

/-- C3 witness: for the two same-key documents of the `c3` example fed
directly in list order, exactly one document survives and it carries
the payload of the later list entry. -/
theorem c3_witness :
    ((saveDealsToDb ([toDoc c3first] ++ toDoc c3second :: []) 3000
        (fun _ => "fallback") []).map Prod.fst).Nodup ∧
    ∃ doc, storeGet (saveDealsToDb ([toDoc c3first] ++ toDoc c3second :: []) 3000
        (fun _ => "fallback") []) "dup-key" = some doc ∧
      ∀ nm v, jsGet (dealDataOf 3000 (toDoc c3second)) nm = some v →
        jsGet doc nm = some v :=
  c3_last_write_wins_at_persistence [] 3000 (fun _ => "fallback")
    [toDoc c3first] [] (toDoc c3second) "dup-key"
    (by simp)
    ⟨0, toDoc c3first, rfl, by decide⟩
    (by decide)
    (fun idx d h => Option.noConfusion h)

/-- C3 counterexample: the run whose merged input is
`[c3first, c3second]` (same key, `c3second` supplied last in
concatenation order) persists the document of `c3first` — the
date-descending sort reorders the duplicates, so the survivor is not
the last one in concatenation order. -/
theorem c3_survivor_not_concat_last :
    (storeGet c3persisted "dup-key").bind (fun doc => jsGet doc "title") =
        some "first in concatenation order" ∧
      "first in concatenation order" ≠ c3second.title := by
  decide

/-! ## Upsert key choice (C9) -/

/-- C9 (amended): the upsert key of `saveDealsToDb` is the deal's
`dealID` when present and non-empty, falling back to the deal's `id`,
and only when both are absent or empty does the time+random composite
identifier get used. -/
theorem c9_upsert_key_prefers_dealID :
    (∀ (deal : Doc) (fb s : String),
      jsGet deal "dealID" = some s → s.isEmpty = false → docIdOf deal fb = s) ∧
    (∀ (deal : Doc) (fb t : String),
      (jsGet deal "dealID" = none ∨ jsGet deal "dealID" = some "") →
      jsGet deal "id" = some t → t.isEmpty = false → docIdOf deal fb = t) ∧
    (∀ (deal : Doc) (fb : String),
      (jsGet deal "dealID" = none ∨ jsGet deal "dealID" = some "") →
      (jsGet deal "id" = none ∨ jsGet deal "id" = some "") →
      docIdOf deal fb = fb) := by
  refine ⟨?_, ?_, ?_⟩
  · intro deal fb s hs hne
    unfold docIdOf
    rw [hs]
    simp [jsOrStr, hne]
  · intro deal fb t hdeal ht hne
    unfold docIdOf
    have he : ("" : String).isEmpty = true := rfl
    rcases hdeal with h | h <;> rw [h, ht] <;> simp [jsOrStr, hne, he]
  · intro deal fb hdeal hid
    unfold docIdOf
    have he : ("" : String).isEmpty = true := rfl
    rcases hdeal with h | h <;> rcases hid with h2 | h2 <;> rw [h, h2] <;> simp [jsOrStr, he]

/-- C9 witness: a deal with a non-empty `dealID` keys under that
`dealID`; a deal with neither `dealID` nor `id` keys under the
composite fallback. -/
theorem c9_witness :
    docIdOf c9deal "deal_999_zzz" = "humble-g1" ∧
    docIdOf c9anon "deal_999_zzz" = "deal_999_zzz" :=
  ⟨c9_upsert_key_prefers_dealID.1 c9deal "deal_999_zzz" "humble-g1" (by decide) (by decide),
   c9_upsert_key_prefers_dealID.2.2 c9anon "deal_999_zzz" (Or.inl (by decide))
     (Or.inl (by decide))⟩

/-- C9 counterexample: `c9deal` has `id = "g1"`, yet its upsert key is
its `dealID` `"humble-g1"`, not the `id` — refuting the claim that the
document identifier is the deal's `id` whenever the `id` is present. -/
theorem c9_key_is_dealID_not_id :
    jsGet c9deal "id" = some "g1" ∧
    docIdOf c9deal "deal_999_zzz" = "humble-g1" ∧
    ("humble-g1" : String) ≠ "g1" := by
  decide

/-! ## Price-field shapes (C4) -/

/-- A successful `now $...` match always returns a `$`-prefixed string. -/
theorem findNowPrice_shape :
    ∀ (cs : List Char) (s : String), findNowPrice cs = some s → ∃ m, s = "$" ++ m := by
  intro cs
  induction cs with
  | nil => intro s h; exact Option.noConfusion h
  | cons a rest ih =>
    intro s h
    cases hn : nowPriceAt (a :: rest) with
    | some m =>
      simp only [findNowPrice, hn] at h
      exact ⟨String.mk m, (Option.some.inj h).symm⟩
    | none =>
      simp only [findNowPrice, hn] at h
      exact ih s h

/-- C4 (amended): the price fields produced by every adapter are always
defined strings of a fixed set of shapes — a `$`-prefixed dollar string,
the literal `Free`, the sentinel `Price not available` when no price is
found, or `Coming Soon` for upcoming Epic promotions; a missing raw
price field never yields an undefined value (for CheapShark it yields
the `$`-prefixed rendering of `NaN`). -/
theorem c4_price_fields_defined_shapes :
    (∀ (now : Nat) (item : RSSItem),
      ((humbleDealOf now item).originalPrice = "Price not available" ∨
        ∃ m, (humbleDealOf now item).originalPrice = "$" ++ m) ∧
      ((humbleDealOf now item).dealPrice = "Free" ∨
        ∃ m, (humbleDealOf now item).dealPrice = "$" ++ m)) ∧
    (∀ (now : Nat) (g : EpicGame),
      ((epicDealOf now g).dealPrice = "Free" ∨
        (epicDealOf now g).dealPrice = "Coming Soon") ∧
      ((epicDealOf now g).originalPrice = "Price not available" ∨
        ∃ fp, g.fmtOriginalPrice = some fp ∧ (epicDealOf now g).originalPrice = fp)) ∧
    (∀ (now : Nat) (raw : RawDeal),
      (∃ m, (processDeal now raw).originalPrice = "$" ++ m) ∧
      ((processDeal now raw).dealPrice = "Free" ∨
        ∃ m, (processDeal now raw).dealPrice = "$" ++ m)) := by
  refine ⟨?_, ?_, ?_⟩
  · intro now item
    constructor
    · cases hf : findPrice item.description.data with
      | none => left; simp [humbleDealOf, humbleOriginalPrice, hf]
      | some m => right; exact ⟨m, by simp [humbleDealOf, humbleOriginalPrice, hf]⟩
    · cases hs : findNowPrice item.description.data with
      | none => left; simp [humbleDealOf, humbleDealPrice, hs]
      | some p =>
        right
        obtain ⟨m, hm⟩ := findNowPrice_shape _ p hs
        exact ⟨m, by simp [humbleDealOf, humbleDealPrice, hs, hm]⟩
  · intro now g
    constructor
    · by_cases hu : (!epicHasCurrent g && epicHasUpcoming g) = true
      · right; simp [epicDealOf, hu]
      · left; simp [epicDealOf, hu]
    · cases hp : g.fmtOriginalPrice with
      | none => left; simp [epicDealOf, jsOrStr, hp]
      | some fp =>
        by_cases hfe : fp.isEmpty = true
        · left; simp [epicDealOf, jsOrStr, hp, hfe]
        · right; exact ⟨fp, rfl, by simp [epicDealOf, jsOrStr, hp, hfe]⟩
  · intro now raw
    refine ⟨⟨ratToFixed2 (jsParseFloat raw.normalPrice), rfl⟩, ?_⟩
    cases hv : jsParseFloat raw.salePrice with
    | none => right; exact ⟨ratToFixed2 none, by simp [processDeal, hv]⟩
    | some v =>
      by_cases h0 : v = 0
      · left; simp [processDeal, hv, h0]
      · right; exact ⟨ratToFixed2 (some v), by simp [processDeal, hv, h0]⟩

/-- C4 counterexample: the Humble item `c4item` has no price in its
description, so its `originalPrice` is the sentinel
`Price not available` — a value that is neither the literal `Free` nor
any `"$X.XX"` dollar string. -/
theorem c4_missing_price_yields_sentinel :
    (humbleDealOf 500 c4item).originalPrice = "Price not available" ∧
    ("Price not available" : String) ≠ "Free" ∧
    ("Price not available" : String).data.head? ≠ some '$' := by
  decide

/-! ## Free deals and full savings (C5) -/

/-- C5 (amended): the RSS adapters enforce the invariant — a Humble or
Epic deal with `dealPrice = "Free"` always carries `savings = "100"`;
the CheapShark adapter, by contrast, copies the provider's savings
field unchanged (see the counterexample). -/
theorem c5_rss_free_implies_full_savings :
    (∀ (now : Nat) (item : RSSItem),
      (humbleDealOf now item).dealPrice = "Free" →
      (humbleDealOf now item).savings = "100") ∧
    (∀ (now : Nat) (g : EpicGame),
      (epicDealOf now g).dealPrice = "Free" → (epicDealOf now g).savings = "100") := by
  constructor
  · intro now item h
    have h' : humbleDealPrice item.description = "Free" := h
    show humbleSavings (humbleIsFree item.title item.description)
      (findPrice item.description.data) (findNowPrice item.description.data) = "100"
    unfold humbleIsFree
    rw [h']
    simp [humbleSavings]
  · intro now g _
    rfl

/-- C5 witness: the free Humble item `c5item` yields
`dealPrice = "Free"` and `savings = "100"`. -/
theorem c5_witness :
    (humbleDealOf 600 c5item).dealPrice = "Free" ∧
    (humbleDealOf 600 c5item).savings = "100" :=
  ⟨by decide, c5_rss_free_implies_full_savings.1 600 c5item (by decide)⟩

/-- C5 counterexample: the CheapShark adapter maps the raw record
`c5raw` (sale price 0, provider savings `"30.0"`) to a deal with
`dealPrice = "Free"` whose savings value is not 100 — the adapter
copies the provider's savings field instead of enforcing the
invariant. -/
theorem c5_cheapshark_free_without_full_savings :
    (processDeal 0 c5raw).dealPrice = "Free" ∧
    (processDeal 0 c5raw).savings ≠ "100" := by
  decide

end DailyGameDrops
